import Mathlib

/-!
# Verification of the uplink-server Simple Socket Variant clients

Shallow embedding of the two "Simple Socket Variant" clients of the
uplink-server repository:

* `UplinkFsClient`  (vscode-server/src/vs/platform/files/node/uplink/uplinkFsClient.ts)
* `UplinkPtyClient` (vscode-server/src/vs/platform/terminal/node/uplink/uplinkPtyClient.ts)

Both clients speak the wire format `[1 byte tag][4 byte length BE][MessagePack
payload]` over a Unix socket.  Bytes are modelled as natural numbers `< 256`,
byte buffers as `List Nat`.  The MessagePack codec is an external library
(`@msgpack/msgpack`); a decoded payload is modelled as the record `Msg` holding
exactly the fields the clients read (`id`, `message`, `session_id`/`terminal_id`,
`data`, `code`, `changes`), with the remaining payload content uninterpreted.

The Persistent Session Protocol's receive path is only documented in this
repository (docs/protocol/12-reconnection-errors.md); its model below is
explicitly marked as modelled from the specification.
-/

/-! ## Wire framing

`UplinkFsClient.send` / `UplinkPtyClient.send` build a 5-byte header with
`header[0] = tag` and `header.writeUInt32BE(payload.length, 1)`, then write
`header ++ payload`.  `handleData` (identical in both clients) concatenates the
incoming chunk onto an internal buffer and repeatedly strips complete
`[tag][len][payload]` envelopes off the front, stopping as soon as fewer than
5 header bytes or fewer than `len` payload bytes are available. -/

/-- `Buffer.writeUInt32BE`: the four big-endian bytes of `n` (Node throws a
`RangeError` for `n ≥ 2^32`; the theorems below restrict to that domain). -/
def writeUInt32BE (n : Nat) : List Nat :=
  [n / 16777216 % 256, n / 65536 % 256, n / 256 % 256, n % 256]

/-- `buffer.readUInt32BE(1)`: the 32-bit big-endian integer formed by bytes
1..4 of the buffer (out-of-range reads are modelled as 0; the callers only
read after checking `buffer.length >= 5`). -/
def readUInt32BEat1 (buf : List Nat) : Nat :=
  buf.getD 1 0 * 16777216 + buf.getD 2 0 * 65536 + buf.getD 3 0 * 256 + buf.getD 4 0

/-- `UplinkFsClient.send` / `UplinkPtyClient.send` at the byte level: the bytes
written to the socket for a message whose MessagePack encoding is `payload`.
`header[0] = tag` truncates to a byte, hence `tag % 256`. -/
def sendBytes (tag : Nat) (payload : List Nat) : List Nat :=
  tag % 256 :: writeUInt32BE payload.length ++ payload

/-- The `while` loop of `UplinkFsClient.handleData` / `UplinkPtyClient.handleData`:
given the concatenated buffer, returns the list of complete `(tag, payload)`
envelopes stripped off the front together with the remaining buffer. -/
def handleDataLoop (buf : List Nat) : List (Nat × List Nat) × List Nat :=
  if h : 5 ≤ buf.length then
    let tag := buf.getD 0 0
    let len := readUInt32BEat1 buf
    if buf.length < 5 + len then
      ([], buf)
    else
      let payload := (buf.drop 5).take len
      let rest := handleDataLoop (buf.drop (5 + len))
      ((tag, payload) :: rest.1, rest.2)
  else
    ([], buf)
termination_by buf.length
decreasing_by
  simp only [List.length_drop]
  omega

/-- Successive calls of `handleData`, one per chunk: the client's `buffer`
field threads through, each chunk is appended to it and the loop is run.
Returns all messages delivered to `handleMessage`, in order, and the final
buffer. -/
def feedChunks (buf : List Nat) : List (List Nat) → List (Nat × List Nat) × List Nat
  | [] => ([], buf)
  | c :: cs =>
    let r := handleDataLoop (buf ++ c)
    let r2 := feedChunks r.2 cs
    (r.1 ++ r2.1, r2.2)

theorem readUInt32BEat1_write (tag : Nat) (n : Nat) (tl : List Nat) (hn : n < 4294967296) :
    readUInt32BEat1 (tag :: writeUInt32BE n ++ tl) = n := by
  simp only [readUInt32BEat1, writeUInt32BE, List.cons_append, List.getD, List.get?_eq_getElem?]
  simp only [List.getElem?_cons_succ, List.getElem?_cons_zero, Option.getD_some]
  omega

theorem handleDataLoop_nil : handleDataLoop [] = ([], []) := by
  rw [handleDataLoop]
  simp

/-- Unfolding lemma: a buffer shorter than the 5-byte header is kept whole. -/
theorem handleDataLoop_short (buf : List Nat) (h : buf.length < 5) :
    handleDataLoop buf = ([], buf) := by
  rw [handleDataLoop]
  simp [Nat.not_le.mpr h]

/-- Unfolding lemma: a buffer whose declared payload is incomplete is kept whole. -/
theorem handleDataLoop_incomplete (buf : List Nat) (h5 : 5 ≤ buf.length)
    (hlen : buf.length < 5 + readUInt32BEat1 buf) :
    handleDataLoop buf = ([], buf) := by
  rw [handleDataLoop]
  simp [h5, hlen]

/-- Unfolding lemma: a buffer holding a complete envelope yields it and recurses. -/
theorem handleDataLoop_complete (buf : List Nat) (h5 : 5 ≤ buf.length)
    (hlen : ¬ buf.length < 5 + readUInt32BEat1 buf) :
    handleDataLoop buf =
      ((buf.getD 0 0, (buf.drop 5).take (readUInt32BEat1 buf)) ::
          (handleDataLoop (buf.drop (5 + readUInt32BEat1 buf))).1,
        (handleDataLoop (buf.drop (5 + readUInt32BEat1 buf))).2) := by
  rw [handleDataLoop]
  simp [h5, hlen]

theorem readUInt32BEat1_append (buf extra : List Nat) (h : 5 ≤ buf.length) :
    readUInt32BEat1 (buf ++ extra) = readUInt32BEat1 buf := by
  unfold readUInt32BEat1
  rw [List.getD_append _ _ _ _ (by omega), List.getD_append _ _ _ _ (by omega),
    List.getD_append _ _ _ _ (by omega), List.getD_append _ _ _ _ (by omega)]

/-- Composition: running the loop on `buf ++ extra` strips first everything the
loop strips from `buf` alone, then continues on the leftover plus `extra`. -/
theorem handleDataLoop_append (buf extra : List Nat) :
    handleDataLoop (buf ++ extra) =
      ((handleDataLoop buf).1 ++ (handleDataLoop ((handleDataLoop buf).2 ++ extra)).1,
        (handleDataLoop ((handleDataLoop buf).2 ++ extra)).2) := by
  have main : ∀ (n : Nat) (buf : List Nat), buf.length ≤ n → ∀ extra : List Nat,
      handleDataLoop (buf ++ extra) =
        ((handleDataLoop buf).1 ++ (handleDataLoop ((handleDataLoop buf).2 ++ extra)).1,
          (handleDataLoop ((handleDataLoop buf).2 ++ extra)).2) := by
    intro n
    induction n with
    | zero =>
      intro buf hlen extra
      have hb : buf = [] := List.length_eq_zero.mp (Nat.le_zero.mp hlen)
      subst hb
      rw [handleDataLoop_nil]
      simp
    | succ n ih =>
      intro buf hlen extra
      by_cases h5 : 5 ≤ buf.length
      · set len := readUInt32BEat1 buf with hlendef
        by_cases hcomp : buf.length < 5 + len
        · -- incomplete payload: the loop on `buf` keeps the buffer whole
          rw [handleDataLoop_incomplete buf h5 hcomp]
          simp
        · -- a complete envelope sits at the front of `buf`
          have h5' : 5 ≤ (buf ++ extra).length := by
            simp only [List.length_append]; omega
          have hlen' : readUInt32BEat1 (buf ++ extra) = len :=
            readUInt32BEat1_append buf extra h5
          have hcomp' : ¬ (buf ++ extra).length < 5 + readUInt32BEat1 (buf ++ extra) := by
            rw [hlen']
            simp only [List.length_append]
            omega
          rw [handleDataLoop_complete buf h5 hcomp,
            handleDataLoop_complete (buf ++ extra) h5' hcomp', hlen']
          have htag : (buf ++ extra).getD 0 0 = buf.getD 0 0 :=
            List.getD_append _ _ _ _ (by omega)
          have hdrop5 : (buf ++ extra).drop 5 = buf.drop 5 ++ extra :=
            List.drop_append_of_le_length h5
          have hpay : ((buf ++ extra).drop 5).take len = (buf.drop 5).take len := by
            rw [hdrop5]
            exact List.take_append_of_le_length (by simp only [List.length_drop]; omega)
          have hrest : (buf ++ extra).drop (5 + len) = buf.drop (5 + len) ++ extra :=
            List.drop_append_of_le_length (by omega)
          rw [htag, hpay, hrest]
          have hrec := ih (buf.drop (5 + len)) (by simp only [List.length_drop]; omega) extra
          rw [hrec]
          simp
      · -- fewer than 5 bytes in `buf`: nothing is stripped from it
        rw [handleDataLoop_short buf (by omega)]
        simp
  exact main buf.length buf le_rfl extra

/-- The buffer the loop leaves behind never holds a complete envelope: running
the loop on it again strips nothing. -/
theorem handleDataLoop_leftover (buf : List Nat) :
    handleDataLoop (handleDataLoop buf).2 = ([], (handleDataLoop buf).2) := by
  have main : ∀ (n : Nat) (buf : List Nat), buf.length ≤ n →
      handleDataLoop (handleDataLoop buf).2 = ([], (handleDataLoop buf).2) := by
    intro n
    induction n with
    | zero =>
      intro buf hlen
      have hb : buf = [] := List.length_eq_zero.mp (Nat.le_zero.mp hlen)
      subst hb
      rw [handleDataLoop_nil]
      exact handleDataLoop_nil
    | succ n ih =>
      intro buf hlen
      by_cases h5 : 5 ≤ buf.length
      · by_cases hcomp : buf.length < 5 + readUInt32BEat1 buf
        · rw [handleDataLoop_incomplete buf h5 hcomp]
          exact handleDataLoop_incomplete buf h5 hcomp
        · rw [handleDataLoop_complete buf h5 hcomp]
          exact ih (buf.drop (5 + readUInt32BEat1 buf))
            (by simp only [List.length_drop]; omega)
      · rw [handleDataLoop_short buf (by omega)]
        exact handleDataLoop_short buf (by omega)
  exact main buf.length buf le_rfl

/-- Feeding the chunks one at a time from a quiescent buffer delivers exactly
the messages of the concatenated stream, with the same final buffer. -/
theorem feedChunks_eq_join (chunks : List (List Nat)) :
    ∀ buf : List Nat, handleDataLoop buf = ([], buf) →
      feedChunks buf chunks = handleDataLoop (buf ++ chunks.flatten) := by
  induction chunks with
  | nil =>
    intro buf hq
    simp only [feedChunks, List.flatten_nil, List.append_nil]
    exact hq.symm
  | cons c cs ih =>
    intro buf hq
    simp only [feedChunks, List.flatten_cons]
    rw [← List.append_assoc, handleDataLoop_append (buf ++ c) cs.flatten]
    rw [ih (handleDataLoop (buf ++ c)).2 (handleDataLoop_leftover (buf ++ c))]

theorem sendBytes_length (tag : Nat) (payload : List Nat) :
    (sendBytes tag payload).length = 5 + payload.length := by
  simp [sendBytes, writeUInt32BE]
  omega

theorem sendBytes_drop5 (tag : Nat) (payload : List Nat) :
    (sendBytes tag payload).drop 5 = payload := by
  simp [sendBytes, writeUInt32BE]

theorem sendBytes_drop_all (tag : Nat) (payload : List Nat) :
    (sendBytes tag payload).drop (5 + payload.length) = [] := by
  apply List.drop_eq_nil_of_le
  rw [sendBytes_length]

/-- Decoding one frame produced by `send`: the loop delivers exactly one
`(tag, payload)` message and leaves an empty buffer. -/
theorem handleDataLoop_sendBytes (tag : Nat) (payload : List Nat)
    (htag : tag < 256) (hlen : payload.length < 4294967296) :
    handleDataLoop (sendBytes tag payload) = ([(tag, payload)], []) := by
  have hread : readUInt32BEat1 (sendBytes tag payload) = payload.length :=
    readUInt32BEat1_write (tag % 256) payload.length payload hlen
  have h5 : 5 ≤ (sendBytes tag payload).length := by
    rw [sendBytes_length]; omega
  have hcomp : ¬ (sendBytes tag payload).length < 5 + readUInt32BEat1 (sendBytes tag payload) := by
    rw [sendBytes_length, hread]; omega
  rw [handleDataLoop_complete _ h5 hcomp, hread, sendBytes_drop5, sendBytes_drop_all,
    handleDataLoop_nil, List.take_length]
  have htag0 : (sendBytes tag payload).getD 0 0 = tag := by
    simp [sendBytes, Nat.mod_eq_of_lt htag]
  rw [htag0]

/-! ## Decoded messages and client state

`handleMessage` first runs `decode(payload)` (MessagePack) and then reads only
a handful of fields off the decoded object.  `Msg` holds those fields; the
`data` field stands for any uninterpreted payload content (`changes`, `data`,
result fields passed through `resolve(msg)` whole).

A `PendingRequest` in the source is the pair of promise continuations
`{resolve, reject}` stored under the request id.  The continuations are
modelled by an abstract caller token: settling the promise stored under key
`id` with caller token `c` is recorded as an observable `resolvedFor c m` /
`rejectedFor c e` event.  `EventEmitter.emit` calls are recorded likewise. -/

structure Msg where
  id : Nat
  message : String
  sessionId : String
  terminalId : Nat
  code : Int
  data : List Nat
deriving Repr, DecidableEq

inductive ClientEvent where
  | resolvedFor (caller : Nat) (m : Msg)
  | rejectedFor (caller : Nat) (errMessage : String)
  | fileChange (sessionId : String) (changes : List Nat)
  | watchError (sessionId : String) (message : String)
  | dataEvent (terminalId : Nat) (data : List Nat)
  | exitEvent (terminalId : Nat) (code : Int)
  | closeEvent
deriving Repr, DecidableEq

/-- The mutable fields shared by `UplinkFsClient` and `UplinkPtyClient`:
`socket` (modelled by whether it is non-null), `buffer`, `nextId`, `pending`.
`pending` is the JS `Map<number, PendingRequest>` as an association list in
insertion order, values being abstract caller tokens. -/
structure ClientState where
  socketConnected : Bool
  buffer : List Nat
  nextId : Nat
  pending : List (Nat × Nat)
deriving Repr, DecidableEq

/-- `Map.get`: first value stored under the key. -/
def mapGet (p : List (Nat × Nat)) (id : Nat) : Option Nat :=
  match p with
  | [] => none
  | e :: rest => if e.1 = id then some e.2 else mapGet rest id

/-- `Map.delete`: removes the entry stored under the key, if any. -/
def mapDelete (p : List (Nat × Nat)) (id : Nat) : List (Nat × Nat) :=
  match p with
  | [] => []
  | e :: rest => if e.1 = id then rest else e :: mapDelete rest id

/-- `Map.set`: overwrites in place, or appends a new entry. -/
def mapSet (p : List (Nat × Nat)) (id c : Nat) : List (Nat × Nat) :=
  match p with
  | [] => [(id, c)]
  | e :: rest => if e.1 = id then (id, c) :: rest else e :: mapSet rest id c

theorem mapGet_nil (id : Nat) : mapGet [] id = none := rfl

theorem mapDelete_of_get_none (p : List (Nat × Nat)) (id : Nat)
    (h : mapGet p id = none) : mapDelete p id = p := by
  induction p with
  | nil => rfl
  | cons e rest ih =>
    simp only [mapGet] at h
    by_cases he : e.1 = id
    · simp [he] at h
    · simp only [mapDelete, if_neg he]
      rw [ih (by simpa [he] using h)]

theorem mapGet_mapDelete_ne (p : List (Nat × Nat)) (i j : Nat) (hne : j ≠ i) :
    mapGet (mapDelete p i) j = mapGet p j := by
  induction p with
  | nil => rfl
  | cons e rest ih =>
    by_cases he : e.1 = i
    · simp only [mapDelete, if_pos he, mapGet]
      rw [if_neg (by omega)]
    · simp only [mapDelete, if_neg he, mapGet]
      by_cases hej : e.1 = j
      · simp [hej]
      · simp only [if_neg hej]
        exact ih

theorem mapDelete_keys_sublist (p : List (Nat × Nat)) (i : Nat) :
    List.Sublist ((mapDelete p i).map Prod.fst) (p.map Prod.fst) := by
  induction p with
  | nil => exact List.Sublist.refl _
  | cons e rest ih =>
    by_cases he : e.1 = i
    · simp only [mapDelete, if_pos he, List.map_cons]
      exact List.sublist_cons_of_sublist _ (List.Sublist.refl _)
    · simp only [mapDelete, if_neg he, List.map_cons]
      exact List.Sublist.cons₂ _ ih

theorem mapGet_mapSet_self (p : List (Nat × Nat)) (id c : Nat) :
    mapGet (mapSet p id c) id = some c := by
  induction p with
  | nil => simp [mapSet, mapGet]
  | cons e rest ih =>
    by_cases he : e.1 = id
    · simp [mapSet, he, mapGet]
    · simp only [mapSet, if_neg he, mapGet, if_neg he]
      exact ih

theorem mapSet_keys_of_get_none (p : List (Nat × Nat)) (id c : Nat)
    (h : mapGet p id = none) :
    (mapSet p id c).map Prod.fst = p.map Prod.fst ++ [id] := by
  induction p with
  | nil => rfl
  | cons e rest ih =>
    simp only [mapGet] at h
    by_cases he : e.1 = id
    · simp [he] at h
    · simp only [mapSet, if_neg he, List.map_cons, List.cons_append]
      rw [ih (by simpa [he] using h)]

/-! ## The two clients' message handling and request issuing

`UplinkFsClient.request` and `UplinkPtyClient.request` are textually identical:
the promise executor stores `{resolve, reject}` under `id` in `pending` and
then calls `send`, which throws `Error('Not connected')` when `socket` is
null (a throw inside the executor rejects the returned promise).  Every
request method runs `const id = this.nextId++` and then `request(TAG, msg, id)`.
These shared bodies are modelled once. -/

/-- `UplinkFsClient.send` / `UplinkPtyClient.send` as seen by the caller: the
socket write succeeds silently when connected; with `socket === null` it
throws `Error('Not connected')`. -/
def sendOutcome (st : ClientState) : Option String :=
  if st.socketConnected then none else some "Not connected"

/-- `UplinkFsClient.request` / `UplinkPtyClient.request`: register the promise
continuations under `id`, then `send`; a throw from `send` rejects the new
promise (second component: `some err` = promise already rejected with `err`,
`none` = promise left pending). -/
def clientRequest (id caller : Nat) (st : ClientState) : ClientState × Option String :=
  let st1 := { st with pending := mapSet st.pending id caller }
  (st1, sendOutcome st1)

set_option linter.unusedVariables false in
/-- The common body of every request method (`stat`, `readFile`, ..., `create`,
`input`, `resize`, `kill`): `const id = this.nextId++; this.request(tag, msg, id)`.
Returns the new state, the id that was assigned, and the immediate outcome.
The message tag only selects which request is written to the socket; it does
not influence the client state. -/
def clientInvoke (tag caller : Nat) (st : ClientState) : (ClientState × Nat) × Option String :=
  let id := st.nextId
  let st1 := { st with nextId := st.nextId + 1 }
  let r := clientRequest id caller st1
  ((r.1, id), r.2)

/-- The `socket.on('close', ...)` handler of both clients: it only re-emits a
`close` event; nothing else is touched. -/
def clientOnSocketClose (st : ClientState) : ClientState × List ClientEvent :=
  (st, [ClientEvent.closeEvent])

namespace UplinkFsClient

def MSG_STAT : Nat := 1
def MSG_READ_FILE : Nat := 2
def MSG_WRITE_FILE : Nat := 3
def MSG_DELETE : Nat := 4
def MSG_RENAME : Nat := 5
def MSG_COPY : Nat := 6
def MSG_READ_DIR : Nat := 7
def MSG_MKDIR : Nat := 8
def MSG_WATCH : Nat := 9
def MSG_UNWATCH : Nat := 10
def MSG_REALPATH : Nat := 11
def MSG_OK : Nat := 20
def MSG_ERROR : Nat := 21
def MSG_STAT_RESULT : Nat := 22
def MSG_DATA : Nat := 23
def MSG_DIR_ENTRIES : Nat := 24
def MSG_REALPATH_RESULT : Nat := 25
def MSG_FILE_CHANGE : Nat := 30
def MSG_WATCH_ERROR : Nat := 31

/-- `UplinkFsClient.handleMessage`: the `switch (tag)` on the decoded payload.
`pending.get(msg.id)` is settled via optional chaining and the entry deleted;
push notifications are re-emitted; any other tag falls through the `switch`
without a `default` case. -/
def handleMessage (tag : Nat) (msg : Msg) (st : ClientState) : ClientState × List ClientEvent :=
  if tag = MSG_OK ∨ tag = MSG_STAT_RESULT ∨ tag = MSG_DATA ∨ tag = MSG_DIR_ENTRIES ∨
      tag = MSG_REALPATH_RESULT then
    ({ st with pending := mapDelete st.pending msg.id },
      match mapGet st.pending msg.id with
      | some c => [ClientEvent.resolvedFor c msg]
      | none => [])
  else if tag = MSG_ERROR then
    ({ st with pending := mapDelete st.pending msg.id },
      match mapGet st.pending msg.id with
      | some c => [ClientEvent.rejectedFor c msg.message]
      | none => [])
  else if tag = MSG_FILE_CHANGE then
    (st, [ClientEvent.fileChange msg.sessionId msg.data])
  else if tag = MSG_WATCH_ERROR then
    (st, [ClientEvent.watchError msg.sessionId msg.message])
  else
    (st, [])

def stat (caller : Nat) (st : ClientState) : (ClientState × Nat) × Option String :=
  clientInvoke MSG_STAT caller st

def readFile (caller : Nat) (st : ClientState) : (ClientState × Nat) × Option String :=
  clientInvoke MSG_READ_FILE caller st

def writeFile (caller : Nat) (st : ClientState) : (ClientState × Nat) × Option String :=
  clientInvoke MSG_WRITE_FILE caller st

def readDir (caller : Nat) (st : ClientState) : (ClientState × Nat) × Option String :=
  clientInvoke MSG_READ_DIR caller st

def mkdir (caller : Nat) (st : ClientState) : (ClientState × Nat) × Option String :=
  clientInvoke MSG_MKDIR caller st

def realpath (caller : Nat) (st : ClientState) : (ClientState × Nat) × Option String :=
  clientInvoke MSG_REALPATH caller st

end UplinkFsClient

namespace UplinkPtyClient

def MSG_CREATE : Nat := 1
def MSG_INPUT : Nat := 2
def MSG_RESIZE : Nat := 3
def MSG_KILL : Nat := 4
def MSG_CREATED : Nat := 10
def MSG_OK : Nat := 11
def MSG_ERROR : Nat := 12
def MSG_DATA : Nat := 20
def MSG_EXIT : Nat := 21

/-- `UplinkPtyClient.handleMessage`: the `switch (tag)` on the decoded payload. -/
def handleMessage (tag : Nat) (msg : Msg) (st : ClientState) : ClientState × List ClientEvent :=
  if tag = MSG_CREATED then
    ({ st with pending := mapDelete st.pending msg.id },
      match mapGet st.pending msg.id with
      | some c => [ClientEvent.resolvedFor c msg]
      | none => [])
  else if tag = MSG_OK then
    ({ st with pending := mapDelete st.pending msg.id },
      match mapGet st.pending msg.id with
      | some c => [ClientEvent.resolvedFor c msg]
      | none => [])
  else if tag = MSG_ERROR then
    ({ st with pending := mapDelete st.pending msg.id },
      match mapGet st.pending msg.id with
      | some c => [ClientEvent.rejectedFor c msg.message]
      | none => [])
  else if tag = MSG_DATA then
    (st, [ClientEvent.dataEvent msg.terminalId msg.data])
  else if tag = MSG_EXIT then
    (st, [ClientEvent.exitEvent msg.terminalId msg.code])
  else
    (st, [])

def create (caller : Nat) (st : ClientState) : (ClientState × Nat) × Option String :=
  clientInvoke MSG_CREATE caller st

def input (caller : Nat) (st : ClientState) : (ClientState × Nat) × Option String :=
  clientInvoke MSG_INPUT caller st

def resize (caller : Nat) (st : ClientState) : (ClientState × Nat) × Option String :=
  clientInvoke MSG_RESIZE caller st

def kill (caller : Nat) (st : ClientState) : (ClientState × Nat) × Option String :=
  clientInvoke MSG_KILL caller st

end UplinkPtyClient

/-- Folding a handler over a list of incoming `(tag, decoded payload)` messages,
collecting the emitted events in order. -/
def runMessages (handler : Nat → Msg → ClientState → ClientState × List ClientEvent) :
    List (Nat × Msg) → ClientState → ClientState × List ClientEvent
  | [], st => (st, [])
  | (t, m) :: rest, st =>
    let r := handler t m st
    let r2 := runMessages handler rest r.1
    (r2.1, r.2 ++ r2.2)

/-- Running a sequence of request-method invocations (each given by its tag and
an abstract caller token), collecting the ids assigned, in order. -/
def runInvocations : List (Nat × Nat) → ClientState → ClientState × List Nat
  | [], st => (st, [])
  | (tag, caller) :: rest, st =>
    let r := clientInvoke tag caller st
    let r2 := runInvocations rest r.1.1
    (r2.1, r.1.2 :: r2.2)

/-- The success-response tags of `UplinkFsClient.handleMessage` (all share one
`pending.get / resolve / delete` case body). -/
def fsResolveTags : List Nat :=
  [UplinkFsClient.MSG_OK, UplinkFsClient.MSG_STAT_RESULT, UplinkFsClient.MSG_DATA,
    UplinkFsClient.MSG_DIR_ENTRIES, UplinkFsClient.MSG_REALPATH_RESULT]

/-- The success-response tags of `UplinkPtyClient.handleMessage`. -/
def ptyResolveTags : List Nat :=
  [UplinkPtyClient.MSG_CREATED, UplinkPtyClient.MSG_OK]

theorem fs_handleMessage_resolve (t : Nat) (ht : t ∈ fsResolveTags)
    (m : Msg) (st : ClientState) (c : Nat) (hc : mapGet st.pending m.id = some c) :
    UplinkFsClient.handleMessage t m st =
      ({ st with pending := mapDelete st.pending m.id }, [ClientEvent.resolvedFor c m]) := by
  simp only [fsResolveTags, UplinkFsClient.MSG_OK, UplinkFsClient.MSG_STAT_RESULT,
    UplinkFsClient.MSG_DATA, UplinkFsClient.MSG_DIR_ENTRIES, UplinkFsClient.MSG_REALPATH_RESULT,
    List.mem_cons, List.not_mem_nil, or_false] at ht
  unfold UplinkFsClient.handleMessage
  rcases ht with h | h | h | h | h <;> subst h <;>
    simp [UplinkFsClient.MSG_OK, UplinkFsClient.MSG_STAT_RESULT, UplinkFsClient.MSG_DATA,
      UplinkFsClient.MSG_DIR_ENTRIES, UplinkFsClient.MSG_REALPATH_RESULT, hc]

theorem pty_handleMessage_resolve (t : Nat) (ht : t ∈ ptyResolveTags)
    (m : Msg) (st : ClientState) (c : Nat) (hc : mapGet st.pending m.id = some c) :
    UplinkPtyClient.handleMessage t m st =
      ({ st with pending := mapDelete st.pending m.id }, [ClientEvent.resolvedFor c m]) := by
  simp only [ptyResolveTags, UplinkPtyClient.MSG_CREATED, UplinkPtyClient.MSG_OK,
    List.mem_cons, List.not_mem_nil, or_false] at ht
  unfold UplinkPtyClient.handleMessage
  rcases ht with h | h <;> subst h <;>
    simp [UplinkPtyClient.MSG_CREATED, UplinkPtyClient.MSG_OK, hc]

/-- Generic: with a handler that settles success responses by `pending.get` on
the id, processing responses for distinct pending ids, in any arrival order,
resolves exactly the promise registered under each response's id, with that
response. -/
theorem runMessages_resolves
    (handler : Nat → Msg → ClientState → ClientState × List ClientEvent) (tags : List Nat)
    (hstep : ∀ t ∈ tags, ∀ (m : Msg) (st : ClientState) (c : Nat),
      mapGet st.pending m.id = some c →
      handler t m st =
        ({ st with pending := mapDelete st.pending m.id }, [ClientEvent.resolvedFor c m])) :
    ∀ (resps : List (Nat × Msg)) (st : ClientState),
      (∀ r ∈ resps, r.1 ∈ tags ∧ (mapGet st.pending r.2.id).isSome) →
      (resps.map (fun r => r.2.id)).Nodup →
      (runMessages handler resps st).2 =
        resps.map (fun r => ClientEvent.resolvedFor ((mapGet st.pending r.2.id).getD 0) r.2) := by
  intro resps
  induction resps with
  | nil =>
    intro st _ _
    rfl
  | cons r rest ih =>
    intro st hmem hnodup
    obtain ⟨t, m⟩ := r
    obtain ⟨ht, hsome⟩ := hmem (t, m) (List.mem_cons_self _ _)
    obtain ⟨c, hc⟩ := Option.isSome_iff_exists.mp hsome
    simp only [List.map_cons, List.nodup_cons, List.mem_map] at hnodup
    simp only [runMessages]
    rw [hstep t ht m st c hc]
    have hget : ∀ r ∈ rest, mapGet (mapDelete st.pending m.id) r.2.id = mapGet st.pending r.2.id := by
      intro r hr
      apply mapGet_mapDelete_ne
      intro heq
      exact hnodup.1 ⟨r, hr, heq⟩
    have hih := ih { st with pending := mapDelete st.pending m.id }
      (by
        intro r hr
        refine ⟨(hmem r (List.mem_cons_of_mem _ hr)).1, ?_⟩
        simp only [hget r hr]
        exact (hmem r (List.mem_cons_of_mem _ hr)).2)
      hnodup.2
    simp only [hih, hc, Option.getD_some, List.map_cons, List.singleton_append]
    congr 1
    apply List.map_congr_left
    intro r hr
    rw [hget r hr]

/-! ## Persistent Session Protocol receive path (spec-modelled)

The Persistent Session Protocol implementation is not part of this source
tree; only docs/protocol/12-reconnection-errors.md describes it.  The receive
path is therefore modelled from the specification text. -/

/-- Modelled from the spec: the per-session receive-side state of the
Persistent Session Protocol, whose implementation is missing from the tree —
"accept a data message only if its id is exactly last-received+1 and advance
last-received". -/
structure ReceiverState where
  lastReceived : Nat
deriving Repr, DecidableEq

/-- Modelled from the spec: the receiver's reaction to one incoming data
message — deliver upward, emit a replay-request, or ignore. -/
inductive ReceiverAction where
  | deliver (id : Nat) (payload : List Nat)
  | replayRequest
  | ignore
deriving Repr, DecidableEq

/-- Modelled from the spec: processing one data message — "accept a data
message only if its id is exactly last-received+1 and advance last-received; a
higher id signals a gap and emits replay-request rather than dropping
silently"; lower ids are duplicates and are dropped ("effectively-exactly-once
delivery (dedup by sequence id)"). -/
def receiveData (st : ReceiverState) (id : Nat) (payload : List Nat) :
    ReceiverState × ReceiverAction :=
  if id = st.lastReceived + 1 then
    ({ lastReceived := id }, ReceiverAction.deliver id payload)
  else if st.lastReceived + 1 < id then
    (st, ReceiverAction.replayRequest)
  else
    (st, ReceiverAction.ignore)

/-- Modelled from the spec: the receive loop over a sequence of incoming data
messages, collecting the receiver's reactions in order. -/
def receiveRun (st : ReceiverState) : List (Nat × List Nat) → ReceiverState × List ReceiverAction
  | [] => (st, [])
  | (id, p) :: rest =>
    let r := receiveData st id p
    let r2 := receiveRun r.1 rest
    (r2.1, r.2 :: r2.2)

/-- The sequence ids of the data messages delivered to the layer above. -/
def deliveredIds (acts : List ReceiverAction) : List Nat :=
  acts.filterMap (fun a =>
    match a with
    | ReceiverAction.deliver i _ => some i
    | _ => none)

theorem receiveRun_delivered_increasing :
    ∀ (msgs : List (Nat × List Nat)) (st : ReceiverState),
      List.Chain' (· < ·) (deliveredIds (receiveRun st msgs).2) ∧
      ∀ i ∈ deliveredIds (receiveRun st msgs).2, st.lastReceived < i := by
  intro msgs
  induction msgs with
  | nil =>
    intro st
    exact ⟨List.chain'_nil, by intro i hi; simp [receiveRun, deliveredIds] at hi⟩
  | cons msg rest ih =>
    intro st
    obtain ⟨id, p⟩ := msg
    by_cases hacc : id = st.lastReceived + 1
    · have hstep : receiveData st id p = ({ lastReceived := id }, ReceiverAction.deliver id p) := by
        simp [receiveData, hacc]
      have hih := ih ⟨id⟩
      constructor
      · simp only [receiveRun, hstep, deliveredIds, List.filterMap_cons]
        rw [List.chain'_cons']
        refine ⟨?_, hih.1⟩
        intro h hh
        have hmem : h ∈ deliveredIds (receiveRun ⟨id⟩ rest).2 := by
          unfold deliveredIds
          exact List.mem_of_mem_head? hh
        exact hih.2 h hmem
      · intro i hi
        simp only [receiveRun, hstep, deliveredIds, List.filterMap_cons, List.mem_cons] at hi
        rcases hi with hi | hi
        · omega
        · have hlt : id < i := hih.2 i hi
          omega
    · have hstep : (receiveData st id p).1 = st ∧
          ∀ q, (receiveData st id p).2 ≠ ReceiverAction.deliver id q := by
        by_cases hgap : st.lastReceived + 1 < id
        · simp [receiveData, hacc, hgap]
        · simp [receiveData, hacc, hgap]
      have hih := ih st
      have hacts : deliveredIds (receiveRun st ((id, p) :: rest)).2 =
          deliveredIds (receiveRun st rest).2 := by
        simp only [receiveRun, deliveredIds, List.filterMap_cons]
        rw [hstep.1]
        by_cases hgap : st.lastReceived + 1 < id
        · simp [receiveData, hacc, hgap]
        · simp [receiveData, hacc, hgap]
      rw [hacts]
      exact ⟨(ih st).1, (ih st).2⟩

theorem mapGet_eq_none_of_not_mem (p : List (Nat × Nat)) (id : Nat)
    (h : id ∉ p.map Prod.fst) : mapGet p id = none := by
  induction p with
  | nil => rfl
  | cons e rest ih =>
    simp only [List.map_cons, List.mem_cons, not_or] at h
    simp only [mapGet, if_neg (by omega : ¬ e.1 = id)]
    exact ih h.2

/-- The state after one request-method invocation: the id counter advanced and
the new id registered in `pending`. -/
def invokedState (st : ClientState) (caller : Nat) : ClientState :=
  { st with
    nextId := st.nextId + 1
    pending := mapSet st.pending st.nextId caller }

theorem runInvocations_ids (calls : List (Nat × Nat)) :
    ∀ st : ClientState,
      (∀ k ∈ st.pending.map Prod.fst, k < st.nextId) →
      (runInvocations calls st).2 = List.range' st.nextId calls.length ∧
      (∀ k ∈ (runInvocations calls st).1.pending.map Prod.fst,
        k < (runInvocations calls st).1.nextId) ∧
      ((st.pending.map Prod.fst).Nodup →
        ((runInvocations calls st).1.pending.map Prod.fst).Nodup) := by
  induction calls with
  | nil =>
    intro st hb
    exact ⟨rfl, hb, fun h => h⟩
  | cons c rest ih =>
    intro st hb
    obtain ⟨tag, caller⟩ := c
    have hnone : mapGet st.pending st.nextId = none := by
      apply mapGet_eq_none_of_not_mem
      intro hmem
      exact absurd (hb _ hmem) (by omega)
    have hkeys : (mapSet st.pending st.nextId caller).map Prod.fst =
        st.pending.map Prod.fst ++ [st.nextId] :=
      mapSet_keys_of_get_none _ _ _ hnone
    have hstep : clientInvoke tag caller st =
        ((invokedState st caller, st.nextId), sendOutcome (invokedState st caller)) := by
      simp [clientInvoke, clientRequest, sendOutcome, invokedState]
    have hb' : ∀ k ∈ (invokedState st caller).pending.map Prod.fst,
        k < (invokedState st caller).nextId := by
      intro k hk
      simp only [invokedState] at hk ⊢
      rw [hkeys] at hk
      rcases List.mem_append.mp hk with hk | hk
      · exact Nat.lt_succ_of_lt (hb k hk)
      · simp only [List.mem_singleton] at hk
        omega
    have hih := ih (invokedState st caller) hb'
    refine ⟨?_, ?_, ?_⟩
    · simp only [runInvocations, hstep]
      rw [hih.1]
      rfl
    · simp only [runInvocations, hstep]
      exact hih.2.1
    · intro hnd
      simp only [runInvocations, hstep]
      apply hih.2.2
      simp only [invokedState]
      rw [hkeys]
      simp only [List.nodup_append, List.nodup_cons, List.not_mem_nil, not_false_iff,
        List.nodup_nil, and_true, List.disjoint_singleton]
      refine ⟨hnd, ?_, ?_⟩
      · trivial
      · intro hmem
        exact absurd (hb _ hmem) (by omega)

/-! ## Claim theorems -/

/-- Claim C1: for every set of outstanding requests on one Simple Socket
Variant client (`UplinkFsClient` or `UplinkPtyClient`) and every order in which
success responses arrive — including the reverse of the request order — each
response is matched to a pending request only by its `id` field, and each
caller's promise resolves with the response carrying its own id, never another
caller's result: the event sequence is exactly one `resolvedFor` per response,
whose caller token is the one registered under that response's own id. -/
theorem uplink_responses_matched_only_by_id :
    (∀ (resps : List (Nat × Msg)) (st : ClientState),
      (∀ r ∈ resps, r.1 ∈ fsResolveTags ∧ (mapGet st.pending r.2.id).isSome) →
      (resps.map (fun r => r.2.id)).Nodup →
      (runMessages UplinkFsClient.handleMessage resps st).2 =
        resps.map (fun r =>
          ClientEvent.resolvedFor ((mapGet st.pending r.2.id).getD 0) r.2)) ∧
    (∀ (resps : List (Nat × Msg)) (st : ClientState),
      (∀ r ∈ resps, r.1 ∈ ptyResolveTags ∧ (mapGet st.pending r.2.id).isSome) →
      (resps.map (fun r => r.2.id)).Nodup →
      (runMessages UplinkPtyClient.handleMessage resps st).2 =
        resps.map (fun r =>
          ClientEvent.resolvedFor ((mapGet st.pending r.2.id).getD 0) r.2)) :=
  ⟨runMessages_resolves _ _ fs_handleMessage_resolve,
    runMessages_resolves _ _ pty_handleMessage_resolve⟩

/-- Witness for C1: three pending requests answered in reverse order each
resolve their own caller with their own response. -/
theorem uplink_responses_matched_only_by_id_witness :
    (runMessages UplinkFsClient.handleMessage
      [(20, ⟨3, "", "", 0, 0, []⟩), (20, ⟨2, "", "", 0, 0, []⟩), (20, ⟨1, "", "", 0, 0, []⟩)]
      ⟨true, [], 4, [(1, 10), (2, 20), (3, 30)]⟩).2 =
      [ClientEvent.resolvedFor 30 ⟨3, "", "", 0, 0, []⟩,
        ClientEvent.resolvedFor 20 ⟨2, "", "", 0, 0, []⟩,
        ClientEvent.resolvedFor 10 ⟨1, "", "", 0, 0, []⟩] := by
  have h := uplink_responses_matched_only_by_id.1
    [(20, ⟨3, "", "", 0, 0, []⟩), (20, ⟨2, "", "", 0, 0, []⟩), (20, ⟨1, "", "", 0, 0, []⟩)]
    ⟨true, [], 4, [(1, 10), (2, 20), (3, 30)]⟩ (by decide) (by decide)
  rw [h]
  rfl

/-- Claim C2 counterexample: with request id 1 pending, the `close` handler of
the clients emits only a `close` event; the pending request is neither rejected
with a connection-lost error nor removed — it stays unsettled. -/
theorem uplink_close_pending_unsettled_cex :
    (clientOnSocketClose ⟨true, [], 2, [(1, 7)]⟩).1.pending = [(1, 7)] ∧
    (clientOnSocketClose ⟨true, [], 2, [(1, 7)]⟩).2 = [ClientEvent.closeEvent] ∧
    ClientEvent.rejectedFor 7 "connection lost" ∉
      (clientOnSocketClose ⟨true, [], 2, [(1, 7)]⟩).2 := by
  refine ⟨rfl, rfl, ?_⟩
  decide

/-- Claim C2 (amended): when the socket closes, the clients' `close` handler
only re-emits a `close` event; the pending map and all other client state are
left untouched, so requests in flight at that moment remain unsettled rather
than being rejected as connection-lost. -/
theorem uplink_close_emits_close_only :
    ∀ st : ClientState, clientOnSocketClose st = (st, [ClientEvent.closeEvent]) :=
  fun _ => rfl

/-- Claim C3: for every 1-byte tag and every payload whose length fits the
4-byte length field, `send` produces exactly `[tag][4-byte BE length][payload]`,
and running `handleData` on those bytes delivers exactly one `(tag, payload)`
message with nothing left over. -/
theorem uplink_frame_mutual_inverse :
    ∀ (tag : Nat) (payload : List Nat), tag < 256 → payload.length < 4294967296 →
      sendBytes tag payload = tag :: writeUInt32BE payload.length ++ payload ∧
      handleDataLoop (sendBytes tag payload) = ([(tag, payload)], []) := by
  intro tag payload htag hlen
  exact ⟨by simp [sendBytes, Nat.mod_eq_of_lt htag],
    handleDataLoop_sendBytes tag payload htag hlen⟩

/-- Witness for C3 on a concrete frame. -/
theorem uplink_frame_mutual_inverse_witness :
    20 < 256 ∧ ([42] : List Nat).length < 4294967296 ∧
      handleDataLoop (sendBytes 20 [42]) = ([(20, [42])], []) :=
  ⟨by decide, by decide, (uplink_frame_mutual_inverse 20 [42] (by decide) (by decide)).2⟩

/-- Claim C4: decoding truncated input never fails and never consumes partial
messages — a buffer shorter than the 5-byte header, or shorter than the
header-declared payload, is kept whole with no message delivered — and for
every way of splitting a byte stream into chunks fed successively to
`handleData`, the delivered `(tag, payload)` sequence and the final buffer are
the same as when the whole stream arrives in one chunk. -/
theorem uplink_chunked_decode_agrees :
    (∀ buf : List Nat, buf.length < 5 → handleDataLoop buf = ([], buf)) ∧
    (∀ buf : List Nat, 5 ≤ buf.length → buf.length < 5 + readUInt32BEat1 buf →
      handleDataLoop buf = ([], buf)) ∧
    (∀ chunks : List (List Nat), feedChunks [] chunks = handleDataLoop chunks.flatten) := by
  refine ⟨handleDataLoop_short, handleDataLoop_incomplete, ?_⟩
  intro chunks
  have h := feedChunks_eq_join chunks [] handleDataLoop_nil
  simpa using h

/-- Witness for C4: a frame split into three chunks decodes as if fed whole,
and a 2-byte fragment is buffered untouched. -/
theorem uplink_chunked_decode_agrees_witness :
    feedChunks [] [[20], [0, 0], [0, 1, 42]] =
      handleDataLoop ([[20], [0, 0], [0, 1, 42]].flatten) ∧
    ([1, 2] : List Nat).length < 5 ∧ handleDataLoop [1, 2] = ([], [1, 2]) :=
  ⟨uplink_chunked_decode_agrees.2.2 [[20], [0, 0], [0, 1, 42]],
    by decide, uplink_chunked_decode_agrees.1 [1, 2] (by decide)⟩

/-- Claim C5 (modelled from the spec, the Session Protocol implementation not
being part of this tree): the receive path accepts a data message exactly when
its id is last-received+1, advancing last-received; a higher id emits a
replay-request and delivers nothing; and over any incoming sequence the ids
delivered upward are strictly increasing — never out of order. -/
theorem session_receive_in_order :
    (∀ (st : ReceiverState) (id : Nat) (p : List Nat),
      receiveData st id p = ({ lastReceived := id }, ReceiverAction.deliver id p) ↔
        id = st.lastReceived + 1) ∧
    (∀ (st : ReceiverState) (id : Nat) (p : List Nat),
      st.lastReceived + 1 < id → receiveData st id p = (st, ReceiverAction.replayRequest)) ∧
    (∀ (msgs : List (Nat × List Nat)) (st : ReceiverState),
      List.Chain' (· < ·) (deliveredIds (receiveRun st msgs).2)) := by
  refine ⟨?_, ?_, ?_⟩
  · intro st id p
    constructor
    · intro h
      by_cases hacc : id = st.lastReceived + 1
      · exact hacc
      · by_cases hgap : st.lastReceived + 1 < id
        · simp [receiveData, hacc, hgap] at h
        · simp [receiveData, hacc, hgap] at h
    · intro h
      simp [receiveData, h]
  · intro st id p hgap
    have hacc : ¬ id = st.lastReceived + 1 := by omega
    simp [receiveData, hacc, hgap]
  · intro msgs st
    exact (receiveRun_delivered_increasing msgs st).1

/-- Witness for C5: id 1 is accepted from a fresh receiver, id 5 triggers a
replay-request. -/
theorem session_receive_in_order_witness :
    receiveData ⟨0⟩ 1 [7] = (⟨1⟩, ReceiverAction.deliver 1 [7]) ∧
    receiveData ⟨0⟩ 5 [7] = (⟨0⟩, ReceiverAction.replayRequest) :=
  ⟨(session_receive_in_order.1 ⟨0⟩ 1 [7]).mpr (by decide),
    session_receive_in_order.2.1 ⟨0⟩ 5 [7] (by decide)⟩

/-- The `case` labels of `UplinkFsClient.handleMessage`'s `switch`. -/
def fsKnownTags : List Nat :=
  [UplinkFsClient.MSG_OK, UplinkFsClient.MSG_ERROR, UplinkFsClient.MSG_STAT_RESULT,
    UplinkFsClient.MSG_DATA, UplinkFsClient.MSG_DIR_ENTRIES,
    UplinkFsClient.MSG_REALPATH_RESULT, UplinkFsClient.MSG_FILE_CHANGE,
    UplinkFsClient.MSG_WATCH_ERROR]

/-- The `case` labels of `UplinkPtyClient.handleMessage`'s `switch`. -/
def ptyKnownTags : List Nat :=
  [UplinkPtyClient.MSG_CREATED, UplinkPtyClient.MSG_OK, UplinkPtyClient.MSG_ERROR,
    UplinkPtyClient.MSG_DATA, UplinkPtyClient.MSG_EXIT]

/-- Claim C6: a message whose type tag matches none of the `switch` cases is
ignored: for every unknown tag and every decoded payload, both clients leave
the pending map and all other state unchanged, emit no event and settle no
promise, so subsequent messages are processed from the same state. -/
theorem uplink_unknown_tag_ignored :
    (∀ (tag : Nat) (m : Msg) (st : ClientState), tag ∉ fsKnownTags →
      UplinkFsClient.handleMessage tag m st = (st, [])) ∧
    (∀ (tag : Nat) (m : Msg) (st : ClientState), tag ∉ ptyKnownTags →
      UplinkPtyClient.handleMessage tag m st = (st, [])) := by
  constructor
  · intro tag m st h
    simp only [fsKnownTags, List.mem_cons, List.not_mem_nil, or_false, not_or,
      UplinkFsClient.MSG_OK, UplinkFsClient.MSG_ERROR, UplinkFsClient.MSG_STAT_RESULT,
      UplinkFsClient.MSG_DATA, UplinkFsClient.MSG_DIR_ENTRIES,
      UplinkFsClient.MSG_REALPATH_RESULT, UplinkFsClient.MSG_FILE_CHANGE,
      UplinkFsClient.MSG_WATCH_ERROR] at h
    obtain ⟨h1, h2, h3, h4, h5, h6, h7, h8⟩ := h
    simp [UplinkFsClient.handleMessage, UplinkFsClient.MSG_OK, UplinkFsClient.MSG_ERROR,
      UplinkFsClient.MSG_STAT_RESULT, UplinkFsClient.MSG_DATA, UplinkFsClient.MSG_DIR_ENTRIES,
      UplinkFsClient.MSG_REALPATH_RESULT, UplinkFsClient.MSG_FILE_CHANGE,
      UplinkFsClient.MSG_WATCH_ERROR, h1, h2, h3, h4, h5, h6, h7, h8]
  · intro tag m st h
    simp only [ptyKnownTags, List.mem_cons, List.not_mem_nil, or_false, not_or,
      UplinkPtyClient.MSG_CREATED, UplinkPtyClient.MSG_OK, UplinkPtyClient.MSG_ERROR,
      UplinkPtyClient.MSG_DATA, UplinkPtyClient.MSG_EXIT] at h
    obtain ⟨h1, h2, h3, h4, h5⟩ := h
    simp [UplinkPtyClient.handleMessage, UplinkPtyClient.MSG_CREATED, UplinkPtyClient.MSG_OK,
      UplinkPtyClient.MSG_ERROR, UplinkPtyClient.MSG_DATA, UplinkPtyClient.MSG_EXIT,
      h1, h2, h3, h4, h5]

/-- Witness for C6: tag 99 is unknown to both clients and is dropped without
touching a pending request. -/
theorem uplink_unknown_tag_ignored_witness :
    (99 : Nat) ∉ fsKnownTags ∧ (99 : Nat) ∉ ptyKnownTags ∧
    UplinkFsClient.handleMessage 99 ⟨1, "", "", 0, 0, []⟩ ⟨true, [], 2, [(1, 7)]⟩ =
      (⟨true, [], 2, [(1, 7)]⟩, []) ∧
    UplinkPtyClient.handleMessage 99 ⟨1, "", "", 0, 0, []⟩ ⟨true, [], 2, [(1, 7)]⟩ =
      (⟨true, [], 2, [(1, 7)]⟩, []) :=
  ⟨by decide, by decide,
    uplink_unknown_tag_ignored.1 99 ⟨1, "", "", 0, 0, []⟩ ⟨true, [], 2, [(1, 7)]⟩ (by decide),
    uplink_unknown_tag_ignored.2 99 ⟨1, "", "", 0, 0, []⟩ ⟨true, [], 2, [(1, 7)]⟩ (by decide)⟩

/-- Claim C7: an error response (`MSG_ERROR`) for id `n` rejects exactly the
pending request registered under `n`, with an `Error` carrying the response's
`message`; every other pending request is still found unchanged, and the
socket, buffer and id counter are untouched (the record update changes only
`pending`). -/
theorem uplink_error_rejects_only_target :
    (∀ (m : Msg) (st : ClientState) (c : Nat), mapGet st.pending m.id = some c →
      UplinkFsClient.handleMessage UplinkFsClient.MSG_ERROR m st =
        ({ st with pending := mapDelete st.pending m.id },
          [ClientEvent.rejectedFor c m.message]) ∧
      ∀ j : Nat, j ≠ m.id → mapGet (mapDelete st.pending m.id) j = mapGet st.pending j) ∧
    (∀ (m : Msg) (st : ClientState) (c : Nat), mapGet st.pending m.id = some c →
      UplinkPtyClient.handleMessage UplinkPtyClient.MSG_ERROR m st =
        ({ st with pending := mapDelete st.pending m.id },
          [ClientEvent.rejectedFor c m.message]) ∧
      ∀ j : Nat, j ≠ m.id → mapGet (mapDelete st.pending m.id) j = mapGet st.pending j) := by
  constructor
  · intro m st c hc
    refine ⟨?_, fun j hj => mapGet_mapDelete_ne st.pending m.id j hj⟩
    simp [UplinkFsClient.handleMessage, UplinkFsClient.MSG_OK, UplinkFsClient.MSG_ERROR,
      UplinkFsClient.MSG_STAT_RESULT, UplinkFsClient.MSG_DATA, UplinkFsClient.MSG_DIR_ENTRIES,
      UplinkFsClient.MSG_REALPATH_RESULT, hc]
  · intro m st c hc
    refine ⟨?_, fun j hj => mapGet_mapDelete_ne st.pending m.id j hj⟩
    simp [UplinkPtyClient.handleMessage, UplinkPtyClient.MSG_CREATED, UplinkPtyClient.MSG_OK,
      UplinkPtyClient.MSG_ERROR, hc]

/-- Witness for C7: an error for id 1 rejects caller 10 with the carried
message and leaves the request with id 2 pending. -/
theorem uplink_error_rejects_only_target_witness :
    mapGet [(1, 10), (2, 20)] 1 = some 10 ∧
    UplinkFsClient.handleMessage UplinkFsClient.MSG_ERROR ⟨1, "boom", "", 0, 0, []⟩
      ⟨true, [], 3, [(1, 10), (2, 20)]⟩ =
      (⟨true, [], 3, [(2, 20)]⟩, [ClientEvent.rejectedFor 10 "boom"]) ∧
    mapGet (mapDelete [(1, 10), (2, 20)] 1) 2 = mapGet [(1, 10), (2, 20)] 2 :=
  ⟨by decide,
    (uplink_error_rejects_only_target.1 ⟨1, "boom", "", 0, 0, []⟩
      ⟨true, [], 3, [(1, 10), (2, 20)]⟩ 10 (by decide)).1,
    (uplink_error_rejects_only_target.1 ⟨1, "boom", "", 0, 0, []⟩
      ⟨true, [], 3, [(1, 10), (2, 20)]⟩ 10 (by decide)).2 2 (by decide)⟩

/-- Claim C8: across any sequence of request-method invocations on one client,
the assigned ids are consecutive starting at the current counter (from a fresh
client: 1, 2, 3, ...), each id is assigned exactly once, and the pending map
never holds two live requests under one id. -/
theorem uplink_request_ids_strictly_increasing :
    ∀ (calls : List (Nat × Nat)) (st : ClientState),
      (∀ k ∈ st.pending.map Prod.fst, k < st.nextId) →
      (runInvocations calls st).2 = List.range' st.nextId calls.length ∧
      (runInvocations calls st).2.Nodup ∧
      ((st.pending.map Prod.fst).Nodup →
        ((runInvocations calls st).1.pending.map Prod.fst).Nodup) := by
  intro calls st hb
  obtain ⟨h1, h2, h3⟩ := runInvocations_ids calls st hb
  refine ⟨h1, ?_, h3⟩
  rw [h1]
  exact List.nodup_range' st.nextId calls.length

/-- Witness for C8: three calls on a fresh client get ids 1, 2, 3. -/
theorem uplink_request_ids_strictly_increasing_witness :
    (∀ k ∈ (([] : List (Nat × Nat)).map Prod.fst), k < 1) ∧
    (runInvocations [(1, 0), (2, 0), (11, 0)] ⟨true, [], 1, []⟩).2 = [1, 2, 3] := by
  refine ⟨by decide, ?_⟩
  have h := (uplink_request_ids_strictly_increasing [(1, 0), (2, 0), (11, 0)]
    ⟨true, [], 1, []⟩ (by decide)).1
  rw [h]
  rfl

/-- Claim C9 counterexample: a success response whose id matches no pending
request is dropped silently by both clients — state unchanged, no event, no
promise settled and no error surfaced — contradicting "treated as a protocol
error (surfaced as an error)". -/
theorem uplink_unmatched_id_cex :
    UplinkFsClient.handleMessage UplinkFsClient.MSG_OK ⟨1, "", "", 0, 0, []⟩
      ⟨true, [], 5, []⟩ = (⟨true, [], 5, []⟩, []) ∧
    UplinkPtyClient.handleMessage UplinkPtyClient.MSG_OK ⟨1, "", "", 0, 0, []⟩
      ⟨true, [], 5, []⟩ = (⟨true, [], 5, []⟩, []) := by
  constructor <;> rfl

/-- The response tags that look up `pending` (success responses plus
`MSG_ERROR`) in `UplinkFsClient.handleMessage`. -/
def fsResponseTags : List Nat := fsResolveTags ++ [UplinkFsClient.MSG_ERROR]

/-- The response tags that look up `pending` in `UplinkPtyClient.handleMessage`. -/
def ptyResponseTags : List Nat := ptyResolveTags ++ [UplinkPtyClient.MSG_ERROR]

/-- Claim C9 (amended): a response message carrying an id that matches no
pending request is silently discarded: `pending.get` misses, optional chaining
settles nothing, the delete is a no-op, and the client emits no event and
raises no error — it is not surfaced as a protocol error. -/
theorem uplink_unmatched_id_silently_discarded :
    (∀ (tag : Nat) (m : Msg) (st : ClientState), tag ∈ fsResponseTags →
      mapGet st.pending m.id = none → UplinkFsClient.handleMessage tag m st = (st, [])) ∧
    (∀ (tag : Nat) (m : Msg) (st : ClientState), tag ∈ ptyResponseTags →
      mapGet st.pending m.id = none → UplinkPtyClient.handleMessage tag m st = (st, [])) := by
  constructor
  · intro tag m st ht hnone
    have hdel := mapDelete_of_get_none st.pending m.id hnone
    simp only [fsResponseTags, fsResolveTags, UplinkFsClient.MSG_OK,
      UplinkFsClient.MSG_STAT_RESULT, UplinkFsClient.MSG_DATA, UplinkFsClient.MSG_DIR_ENTRIES,
      UplinkFsClient.MSG_REALPATH_RESULT, UplinkFsClient.MSG_ERROR, List.mem_append,
      List.mem_cons, List.not_mem_nil, or_false] at ht
    rcases ht with (h | h | h | h | h) | h <;> subst h <;>
      simp [UplinkFsClient.handleMessage, UplinkFsClient.MSG_OK, UplinkFsClient.MSG_ERROR,
        UplinkFsClient.MSG_STAT_RESULT, UplinkFsClient.MSG_DATA, UplinkFsClient.MSG_DIR_ENTRIES,
        UplinkFsClient.MSG_REALPATH_RESULT, hnone, hdel]
  · intro tag m st ht hnone
    have hdel := mapDelete_of_get_none st.pending m.id hnone
    simp only [ptyResponseTags, ptyResolveTags, UplinkPtyClient.MSG_CREATED,
      UplinkPtyClient.MSG_OK, UplinkPtyClient.MSG_ERROR, List.mem_append,
      List.mem_cons, List.not_mem_nil, or_false] at ht
    rcases ht with (h | h) | h <;> subst h <;>
      simp [UplinkPtyClient.handleMessage, UplinkPtyClient.MSG_CREATED, UplinkPtyClient.MSG_OK,
        UplinkPtyClient.MSG_ERROR, hnone, hdel]

/-- Witness for C9 (amended): an `MSG_OK` for unknown id 1 on an empty pending
map is a no-op for both clients. -/
theorem uplink_unmatched_id_silently_discarded_witness :
    UplinkFsClient.MSG_OK ∈ fsResponseTags ∧ mapGet [] 1 = none ∧
    UplinkFsClient.handleMessage UplinkFsClient.MSG_OK ⟨1, "x", "", 0, 0, []⟩
      ⟨true, [], 9, []⟩ = (⟨true, [], 9, []⟩, []) ∧
    UplinkPtyClient.handleMessage UplinkPtyClient.MSG_OK ⟨1, "x", "", 0, 0, []⟩
      ⟨true, [], 9, []⟩ = (⟨true, [], 9, []⟩, []) :=
  ⟨by decide, by decide,
    uplink_unmatched_id_silently_discarded.1 UplinkFsClient.MSG_OK ⟨1, "x", "", 0, 0, []⟩
      ⟨true, [], 9, []⟩ (by decide) (by decide),
    uplink_unmatched_id_silently_discarded.2 UplinkPtyClient.MSG_OK ⟨1, "x", "", 0, 0, []⟩
      ⟨true, [], 9, []⟩ (by decide) (by decide)⟩

/-- Claim C10: calling any request method while `socket` is null rejects the
returned promise with `Error('Not connected')`, yet the id counter has been
advanced and the request id is left registered in the pending map — the failed
call does not leave the client state unchanged.  `stat` and `create` are the
named methods; every method shares the `clientInvoke` body. -/
theorem uplink_request_not_connected :
    ∀ (tag caller : Nat) (st : ClientState), st.socketConnected = false →
      clientInvoke tag caller st = ((invokedState st caller, st.nextId), some "Not connected") ∧
      mapGet (invokedState st caller).pending st.nextId = some caller ∧
      (invokedState st caller).nextId = st.nextId + 1 ∧
      UplinkFsClient.stat caller st = ((invokedState st caller, st.nextId), some "Not connected") ∧
      UplinkPtyClient.create caller st =
        ((invokedState st caller, st.nextId), some "Not connected") := by
  intro tag caller st h
  have hmain : ∀ t : Nat, clientInvoke t caller st =
      ((invokedState st caller, st.nextId), some "Not connected") := by
    intro t
    simp [clientInvoke, clientRequest, sendOutcome, invokedState, h]
  refine ⟨hmain tag, ?_, rfl, hmain _, hmain _⟩
  simp only [invokedState]
  exact mapGet_mapSet_self st.pending st.nextId caller

/-- Witness for C10: one `stat` call on a never-connected fresh client. -/
theorem uplink_request_not_connected_witness :
    (⟨false, [], 1, []⟩ : ClientState).socketConnected = false ∧
    UplinkFsClient.stat 7 ⟨false, [], 1, []⟩ =
      ((⟨false, [], 2, [(1, 7)]⟩, 1), some "Not connected") :=
  ⟨rfl, (uplink_request_not_connected 1 7 ⟨false, [], 1, []⟩ rfl).2.2.2.1⟩
